import Mathlib

/-!
Shallow embedding of the temp-mail Telegram bot (`src/main.py`) and proofs
about the claims of its specification.  Strings are modelled as `List Char`;
Python regular-expression passes are translated into structural recursions
over character lists; the mutable module-level dictionaries become a record
of functional maps, and each handler becomes a pure state transformer.
-/

/-- Python `\s` on ASCII input: space, tab, newline, carriage return,
vertical tab, form feed (`main.py` line 120, `re.sub(r"\s+", ".", s)`). -/
def isSpaceCh (c : Char) : Bool :=
  c.toNat = 32 || c.toNat = 9 || c.toNat = 10 || c.toNat = 13 || c.toNat = 11 || c.toNat = 12

/-- Lowercase ASCII letter `[a-z]`. -/
def isLowerCh (c : Char) : Bool := 97 ≤ c.toNat && c.toNat ≤ 122

/-- Uppercase ASCII letter `[A-Z]`. -/
def isUpperCh (c : Char) : Bool := 65 ≤ c.toNat && c.toNat ≤ 90

/-- ASCII digit `[0-9]`. -/
def isDigitCh (c : Char) : Bool := 48 ≤ c.toNat && c.toNat ≤ 57

/-- Python `str.lower()` restricted to ASCII: map `A`-`Z` to `a`-`z`. -/
def lowerCh (c : Char) : Char :=
  if isUpperCh c then Char.ofNat (c.toNat + 32) else c

/-- Character class kept by `re.sub(r"[^a-z0-9._-]", "", s)` in
`sanitize_local_part` (`main.py` line 121). -/
def isAllowedCh (c : Char) : Bool :=
  isLowerCh c || isDigitCh c || c = '.' || c = '_' || c = '-'

/-- Drop matching characters from the right end of a list. -/
def rdropWhile (p : Char → Bool) (l : List Char) : List Char :=
  (l.reverse.dropWhile p).reverse

/-- Python `str.strip()` with no argument: remove ASCII whitespace from both
ends (`main.py` line 119, `raw.strip()`). -/
def pyStrip (l : List Char) : List Char :=
  rdropWhile isSpaceCh (l.dropWhile isSpaceCh)

/-- Python `re.sub(r"\s+", ".", s)`: replace each maximal whitespace run by a
single dot (`main.py` line 120). -/
def subWs : List Char → List Char
  | [] => []
  | [c] => if isSpaceCh c then ['.'] else [c]
  | c1 :: c2 :: rest =>
    if isSpaceCh c1 then
      (if isSpaceCh c2 then subWs (c2 :: rest) else '.' :: subWs (c2 :: rest))
    else c1 :: subWs (c2 :: rest)

/-- Python `re.sub(r"\.+", ".", s)`: collapse each maximal dot run to a
single dot (`main.py` line 122). -/
def collapseDots : List Char → List Char
  | [] => []
  | [c] => [c]
  | c1 :: c2 :: rest =>
    if c1 = '.' ∧ c2 = '.' then collapseDots (c2 :: rest)
    else c1 :: collapseDots (c2 :: rest)

/-- Python `str.strip(".")`: remove dots from both ends (`main.py` line 122). -/
def stripDots (l : List Char) : List Char :=
  rdropWhile (fun c => c = '.') (l.dropWhile (fun c => c = '.'))

/-- `sanitize_local_part` (`main.py` lines 118-123): strip and lowercase,
turn whitespace runs into dots, drop disallowed characters, collapse dot
runs, strip dots from the ends, and keep the first 32 characters. -/
def sanitize_local_part (raw : List Char) : List Char :=
  (stripDots (collapseDots (((subWs ((pyStrip raw).map lowerCh)).filter isAllowedCh)))).take 32

/-- The mail domain: default value of the `DOMAIN` environment variable
(`main.py` line 63). -/
def DOMAIN : List Char := "mg.abdr.tax".data

/-- `make_email` (`main.py` lines 131-132). -/
def make_email (local_part : List Char) : List Char :=
  local_part ++ '@' :: DOMAIN

/-- Local-part class `[a-z0-9._%+\-]` of `_EMAIL_RE` under `re.IGNORECASE`
(`main.py` line 203). -/
def isLocalCh (c : Char) : Bool :=
  isLowerCh c || isUpperCh c || isDigitCh c || c = '.' || c = '_' || c = '%' || c = '+' || c = '-'

/-- Domain class `[a-z0-9.\-]` of `_EMAIL_RE` under `re.IGNORECASE`. -/
def isDomCh (c : Char) : Bool :=
  isLowerCh c || isUpperCh c || isDigitCh c || c = '.' || c = '-'

/-- ASCII letter, the `[a-z]{2,}` class under `re.IGNORECASE`. -/
def isAlphaCh (c : Char) : Bool := isLowerCh c || isUpperCh c

/-- Backtracking of `[a-z0-9.\-]+\.[a-z]{2,}` inside the maximal domain-class
run `dom`: try the dot position from the right end leftwards (the greedy
`+` gives back one character at a time) and demand at least two letters
after the dot.  Returns the dot position and the letter run. -/
def dotScan (dom : List Char) : Nat → Option (Nat × List Char)
  | 0 => none
  | Nat.succ k =>
    let r := (dom.drop (k + 2)).takeWhile isAlphaCh
    if dom.get? (k + 1) = some '.' ∧ 2 ≤ r.length then some (k + 1, r)
    else dotScan dom k

/-- Attempt to match `_EMAIL_RE` at the head of `cs`; on success return the
matched text and the remaining input.  Mirrors Python's leftmost match with
greedy quantifiers: the local run must be directly followed by `@`, and the
domain backtracks only over the final `\.[a-z]{2,}` placement. -/
def matchAt (cs : List Char) : Option (List Char × List Char) :=
  let loc := cs.takeWhile isLocalCh
  let rest1 := cs.dropWhile isLocalCh
  if loc = [] then none
  else
    match rest1 with
    | '@' :: rest2 =>
      let dom := rest2.takeWhile isDomCh
      let rest3 := rest2.dropWhile isDomCh
      match dotScan dom (dom.length - 1) with
      | none => none
      | some (k, r) =>
        some (loc ++ '@' :: (dom.take k ++ '.' :: r), dom.drop (k + 1 + r.length) ++ rest3)
    | _ => none

/-- Scanning loop of `re.findall`: find the leftmost match, emit it, continue
after its end; the fuel (initially the input length) dominates the number of
scanning steps, each of which consumes at least one character. -/
def findAllAux : Nat → List Char → List (List Char)
  | 0, _ => []
  | _, [] => []
  | Nat.succ fuel, c :: cs =>
    match matchAt (c :: cs) with
    | some (m, rest) => m :: findAllAux fuel rest
    | none => findAllAux fuel cs

/-- `_EMAIL_RE.findall(text)` (`main.py` line 209). -/
def findAll (cs : List Char) : List (List Char) := findAllAux cs.length cs

/-- Deduplication loop of `extract_emails` (`main.py` lines 210-216): strip
and lowercase each match, skip empties and matches already seen, keep
first-seen order. -/
def dedupAcc (seen : List (List Char)) : List (List Char) → List (List Char)
  | [] => []
  | e :: rest =>
    if (pyStrip e).map lowerCh ≠ [] ∧ (pyStrip e).map lowerCh ∉ seen then
      (pyStrip e).map lowerCh :: dedupAcc ((pyStrip e).map lowerCh :: seen) rest
    else dedupAcc seen rest

/-- `extract_emails` (`main.py` lines 206-217). -/
def extract_emails (text : List Char) : List (List Char) :=
  if text = [] then [] else dedupAcc [] (findAll text)

/-- Characters escaped by `telegram.helpers.escape_markdown(..., version=2)`
for ordinary text (`main.py` lines 189-192). -/
def escapeChars : List Char :=
  ['_', '*', '[', ']', '(', ')', '~', '`', '>', '#', '+', '-', '=', '|', '\x7b', '\x7d', '.', '!']

/-- `escape_markdown(text, version=2)`: prefix every escapable character
with a backslash. -/
def escapeMD2 (l : List Char) : List Char :=
  l.flatMap (fun c => if c ∈ escapeChars then ['\\', c] else [c])

/-- Body preparation of `format_inbound_message` (`main.py` lines 184-186):
strip, then truncate a body longer than 3500 characters to its first 3500
plus a newline-ellipsis marker. -/
def truncated_body (body : List Char) : List Char :=
  if 3500 < (pyStrip body).length then (pyStrip body).take 3500 ++ ('\n' :: '…' :: [])
  else pyStrip body

/-- Body rendering of `format_inbound_message` (`main.py` line 192):
`escape_markdown(body or "(بدون نص)", version=2)` — an empty body becomes
the Arabic no-text placeholder, then everything is escaped. -/
def inbound_body (body : List Char) : List Char :=
  escapeMD2 (if truncated_body body = [] then "(بدون نص)".data else truncated_body body)

/-- `format_inbound_message` (`main.py` lines 183-200): escape every field
for MarkdownV2 and assemble the notification text. -/
def format_inbound_message (to_email sender subject body : List Char) : List Char :=
  "📩 وصلت رسالة جديدة\n\n".data ++
    "إلى: `".data ++ escapeMD2 to_email ++ "`\n".data ++
    "من: ".data ++ escapeMD2 sender ++ "\n".data ++
    "العنوان: ".data ++ escapeMD2 subject ++ "\n\n".data ++
    inbound_body body

/-- Contiguous-substring test used to state formatting counterexamples. -/
def occursIn (pat : List Char) : List Char → Bool
  | [] => decide (pat = [])
  | c :: t => (decide (pat = (c :: t).take pat.length)) || occursIn pat t

/-- Numeric value of a digit run, as Python `int` on a digit string. -/
def digitsToNat (l : List Char) : Nat :=
  l.foldl (fun n c => n * 10 + (c.toNat - 48)) 0

/-- Scanning loop of `re.search(r"\d{5,}", t)`: the first maximal digit run
of length at least five, taken greedily in full. -/
def digitSearchAux : Nat → List Char → Option (List Char)
  | 0, _ => none
  | _, [] => none
  | Nat.succ fuel, c :: cs =>
    if isDigitCh c then
      let run := c :: cs.takeWhile isDigitCh
      if 5 ≤ run.length then some run
      else digitSearchAux fuel (cs.dropWhile isDigitCh)
    else digitSearchAux fuel cs

/-- `parse_target_user_id` (`main.py` lines 99-107). -/
def parse_target_user_id (text : List Char) : Option Nat :=
  (digitSearchAux (pyStrip text).length (pyStrip text)).map digitsToNat

/-- Environment-derived configuration: `OWNER_ID`, `TG_SECRET_TOKEN` and
`MAILGUN_WEBHOOK_SECRET` (`main.py` lines 71-75). -/
structure Config where
  owner_id : Option Nat
  tg_secret : List Char
  mg_secret : List Char

/-- `is_admin` (`main.py` lines 91-92): `bool(OWNER_ID) and user_id ==
OWNER_ID`; an owner id of `0` is falsy in Python, so it configures no admin. -/
def is_admin (cfg : Config) (user_id : Nat) : Bool :=
  match cfg.owner_id with
  | none => false
  | some v => if v = 0 then false else decide (user_id = v)

/-- The module-level mutable state of `main.py` (lines 80-88): the three
registry mappings, the pending-name flags, the block list and the two
admin-prompt flag sets, all as functional maps. -/
structure St where
  user_emails : Nat → List (List Char)
  user_last_email : Nat → Option (List Char)
  email_owner : List Char → Option Nat
  waiting_for_name : Nat → Bool
  blocked_users : Nat → Bool
  admin_waiting_block : Nat → Bool
  admin_waiting_unblock : Nat → Bool

/-- The state at process start: every mapping empty. -/
def st0 : St :=
  ⟨fun _ => [], fun _ => none, fun _ => none, fun _ => false, fun _ => false,
    fun _ => false, fun _ => false⟩

/-- `remember_email` (`main.py` lines 135-141): append the address to the
owner's list unless present, set the owner's last address, and record the
address's owner. -/
def remember_email (user_id : Nat) (email : List Char) (s : St) : St :=
  { s with
    user_emails := fun u =>
      if u = user_id then
        (if email ∈ s.user_emails user_id then s.user_emails user_id
         else s.user_emails user_id ++ [email])
      else s.user_emails u,
    user_last_email := fun u => if u = user_id then some email else s.user_last_email u,
    email_owner := fun e => if e = email then some user_id else s.email_owner e }

/-- The user-visible outcome of one `on_text` call, one constructor per
reply path of `main.py` lines 342-397. -/
inductive TextOutcome where
  | ignoredBlocked
  | adminBadId
  | adminBlockedUser (target : Nat)
  | adminUnblockedUser (target : Nat)
  | adminNotBlocked
  | ignored
  | invalidName
  | nameTaken
  | minted (email : List Char)
deriving DecidableEq

/-- `on_text` (`main.py` lines 342-397) as a pure state transformer plus
outcome.  Python truthiness is kept: a parsed target id of `0` counts as
`not target_id`, and an existing owner `0` of an address does not trigger
the name-taken branch. -/
def on_text (cfg : Config) (s : St) (uid : Nat) (text : List Char) : St × TextOutcome :=
  if s.blocked_users uid && !is_admin cfg uid then (s, .ignoredBlocked)
  else if s.admin_waiting_block uid then
    match parse_target_user_id text with
    | none => (s, .adminBadId)
    | some tid =>
      if tid = 0 then (s, .adminBadId)
      else
        ({ s with
            blocked_users := fun u => if u = tid then true else s.blocked_users u,
            admin_waiting_block := fun u => if u = uid then false else s.admin_waiting_block u },
          .adminBlockedUser tid)
  else if s.admin_waiting_unblock uid then
    match parse_target_user_id text with
    | none => (s, .adminBadId)
    | some tid =>
      if tid = 0 then (s, .adminBadId)
      else if s.blocked_users tid then
        ({ s with
            blocked_users := fun u => if u = tid then false else s.blocked_users u,
            admin_waiting_unblock := fun u => if u = uid then false else s.admin_waiting_unblock u },
          .adminUnblockedUser tid)
      else
        ({ s with
            admin_waiting_unblock := fun u => if u = uid then false else s.admin_waiting_unblock u },
          .adminNotBlocked)
  else if !s.waiting_for_name uid then (s, .ignored)
  else
    let lp := sanitize_local_part text
    if lp = [] then (s, .invalidName)
    else
      let s1 := { s with waiting_for_name := fun u => if u = uid then false else s.waiting_for_name u }
      let email := make_email lp
      match s.email_owner email with
      | none => (remember_email uid email s1, .minted email)
      | some o =>
        if o ≠ 0 ∧ o ≠ uid then (s1, .nameTaken)
        else (remember_email uid email s1, .minted email)

/-- State effect of every `on_button` branch except `random_email`
(`main.py` lines 237-339): the admin prompts toggle the two admin flag
sets, `choose_name` raises the pending-name flag, and every other branch
(menus, copy, list, back) leaves the state unchanged. -/
def on_button_nonrandom (cfg : Config) (s : St) (uid : Nat) (data : List Char) : St :=
  if s.blocked_users uid && !is_admin cfg uid then s
  else if data = "admin_menu".data then s
  else if data = "admin_block".data then
    if is_admin cfg uid then
      { s with
        admin_waiting_block := fun u => if u = uid then true else s.admin_waiting_block u,
        admin_waiting_unblock := fun u => if u = uid then false else s.admin_waiting_unblock u }
    else s
  else if data = "admin_unblock".data then
    if is_admin cfg uid then
      { s with
        admin_waiting_unblock := fun u => if u = uid then true else s.admin_waiting_unblock u,
        admin_waiting_block := fun u => if u = uid then false else s.admin_waiting_block u }
    else s
  else if data = "choose_name".data then
    { s with waiting_for_name := fun u => if u = uid then true else s.waiting_for_name u }
  else s

/-- Exit condition of the `random_email` collision loop (`main.py` lines
291-295): the candidate's current owner is absent, `0` (falsy) or the
requester. -/
def freeForB (s : St) (uid : Nat) (email : List Char) : Bool :=
  match s.email_owner email with
  | none => true
  | some o => o == 0 || o == uid

/-- The `while True` collision loop of `on_button`'s `random_email` branch
(`main.py` lines 287-295), with the successive random draws supplied as a
stream and an explicit fuel: the untruncated loop terminates exactly when
some draw satisfies `freeForB`. -/
def mint_random_loop (s : St) (uid : Nat) (draw : Nat → List Char) :
    Nat → Nat → Option (List Char)
  | 0, _ => none
  | Nat.succ fuel, i =>
    let e := make_email (draw i)
    if freeForB s uid e then some e else mint_random_loop s uid draw fuel (i + 1)

/-- One inbound chat or mail event, as a relation on states.  User ids
delivered by the chat platform are positive, which the `hpos` side
conditions record; the mail webhook never mutates this state. -/
inductive Step (cfg : Config) : St → St → Prop
  | button {s : St} (uid : Nat) (data : List Char) (hpos : 0 < uid)
      (hnr : data ≠ "random_email".data) :
      Step cfg s (on_button_nonrandom cfg s uid data)
  | buttonRandom {s : St} (uid : Nat) (c : List Char) (hpos : 0 < uid)
      (hb : ¬(s.blocked_users uid = true ∧ is_admin cfg uid = false))
      (hfree : freeForB s uid (make_email c) = true) :
      Step cfg s (remember_email uid (make_email c) s)
  | textMsg {s : St} (uid : Nat) (t : List Char) (hpos : 0 < uid) :
      Step cfg s (on_text cfg s uid t).1
  | mailEvent {s : St} : Step cfg s s

/-- States reachable from process start through inbound events. -/
def Reachable (cfg : Config) (s : St) : Prop :=
  Relation.ReflTransGen (Step cfg) st0 s

/-- Block-list check of the delivery loop (`main.py` line 515):
`owner_id in blocked_users and (not OWNER_ID or owner_id != OWNER_ID)`. -/
def blockedSkip (cfg : Config) (s : St) (o : Nat) : Bool :=
  s.blocked_users o &&
    (match cfg.owner_id with
     | none => true
     | some v => if v = 0 then true else decide (o ≠ v))

/-- Delivery loop of `mailgun_inbound` (`main.py` lines 507-529): resolve
each recipient, skip unowned addresses (an owner id of `0` is falsy) and
blocked non-admin owners, and attempt a send to everyone else.  `sendOk`
models whether the outbound Telegram send succeeds; the result is
`sent_any` plus the list of attempted sends. -/
def routeLoop (cfg : Config) (s : St) (sendOk : Nat → Bool)
    (sender subject body : List Char) :
    List (List Char) → Bool × List (Nat × List Char)
  | [] => (false, [])
  | e :: rest =>
    match s.email_owner e with
    | none => routeLoop cfg s sendOk sender subject body rest
    | some o =>
      if o = 0 then routeLoop cfg s sendOk sender subject body rest
      else if blockedSkip cfg s o then routeLoop cfg s sendOk sender subject body rest
      else
        let msg := format_inbound_message e sender subject body
        let r := routeLoop cfg s sendOk sender subject body rest
        (sendOk o || r.1, (o, msg) :: r.2)

/-- `mailgun_inbound` (`main.py` lines 480-531): an unready bot answers ok
without processing; a configured secret with a differing `X-Webhook-Secret`
header raises 403; otherwise the recipient fields are joined, addresses
extracted, and the delivery loop runs.  The HTTP outcome is `Except` (403
as error), paired with the attempted sends. -/
def mailgun_inbound (cfg : Config) (s : St) (ready : Bool) (hdr : List Char)
    (recipient toUpperF toLowerF envl sender subject stText bpText : List Char)
    (sendOk : Nat → Bool) :
    Except Nat (Bool × Option Bool) × List (Nat × List Char) :=
  if !ready then (.ok (true, none), [])
  else if cfg.mg_secret ≠ [] ∧ hdr ≠ cfg.mg_secret then (.error 403, [])
  else
    let to_raw := if toUpperF ≠ [] then toUpperF else toLowerF
    let candidates_text := pyStrip (recipient ++ " , ".data ++ to_raw ++ " , ".data ++ envl)
    let recipients := extract_emails candidates_text
    let sender2 := pyStrip sender
    let subject2 := pyStrip subject
    let body := pyStrip (if stText ≠ [] then stText else bpText)
    if recipients = [] then (.ok (true, none), [])
    else
      let r := routeLoop cfg s sendOk sender2 subject2 body recipients
      (.ok (true, some r.1), r.2)

/-- `telegram_webhook` (`main.py` lines 464-477): an unready bot raises 500;
a configured secret token with a differing
`X-Telegram-Bot-Api-Secret-Token` header raises 403; otherwise the update
is queued and the handler answers ok. -/
def telegram_webhook (cfg : Config) (ready : Bool) (hdr : List Char) : Except Nat Bool :=
  if !ready then .error 500
  else if cfg.tg_secret ≠ [] ∧ hdr ≠ cfg.tg_secret then .error 403
  else .ok true

/-- No two adjacent characters are both dots. -/
def noDD (a b : Char) : Prop := ¬(a = '.' ∧ b = '.')

instance : DecidableRel noDD := fun _ _ => instDecidableNot

/-- A state whose only content is that user 5 awaits a custom name. -/
def sWait : St := { st0 with waiting_for_name := fun u => decide (u = 5) }

/-- Empty configuration: no admin, no webhook secrets. -/
def cfg0 : Config := ⟨none, [], []⟩

/-- The state after user 5 random-mints `bob@mg.abdr.tax` from scratch. -/
def sMint : St := remember_email 5 (make_email "bob".data) st0

/-- The state after user 7 owns `bob@mg.abdr.tax` and user 5 has pressed
the choose-name button. -/
def sOwnedWait : St :=
  on_button_nonrandom cfg0 (remember_email 7 (make_email "bob".data) st0) 5 "choose_name".data

/-- A state in which `x@mg.abdr.tax` is owned by user 2. -/
def sTaken : St := remember_email 2 (make_email "x".data) st0

/-- The per-recipient delivery decision of the loop body (`main.py` lines
509-527): `none` when the address is unowned (or owner `0`) or the owner is
a blocked non-admin; otherwise the attempted send. -/
def deliveryFor (cfg : Config) (s : St) (sender subject body : List Char)
    (e : List Char) : Option (Nat × List Char) :=
  match s.email_owner e with
  | none => none
  | some o =>
    if o = 0 then none
    else if blockedSkip cfg s o then none
    else some (o, format_inbound_message e sender subject body)

/-- A state in which `a@b.co` belongs to user 8, who is blocked. -/
def sBlocked : St :=
  { st0 with
    email_owner := fun e => if e = "a@b.co".data then some 8 else none,
    blocked_users := fun u => decide (u = 8) }

lemma mem_dropWhile {c : Char} {p : Char → Bool} :
    ∀ {l : List Char}, c ∈ l.dropWhile p → c ∈ l := by
  intro l
  induction l with
  | nil => simp
  | cons a t ih =>
    simp only [List.dropWhile_cons]
    split
    · exact fun h => List.mem_cons_of_mem a (ih h)
    · exact fun h => h

lemma mem_rdropWhile {c : Char} {p : Char → Bool} {l : List Char}
    (h : c ∈ rdropWhile p l) : c ∈ l := by
  unfold rdropWhile at h
  rw [List.mem_reverse] at h
  have := mem_dropWhile h
  rwa [List.mem_reverse] at this

lemma mem_collapseDots {c : Char} :
    ∀ {l : List Char}, c ∈ collapseDots l → c ∈ l := by
  intro l
  induction l with
  | nil => simp [collapseDots]
  | cons c1 tl ih =>
    cases tl with
    | nil => simp [collapseDots]
    | cons c2 rest =>
      simp only [collapseDots]
      split
      · intro h
        exact List.mem_cons_of_mem c1 (ih h)
      · intro h
        rcases List.mem_cons.mp h with h | h
        · exact h ▸ List.mem_cons_self c1 _
        · exact List.mem_cons_of_mem c1 (ih h)

lemma head_dropWhile_false {c : Char} {p : Char → Bool} :
    ∀ {l : List Char}, (l.dropWhile p).head? = some c → p c = false := by
  intro l
  induction l with
  | nil => simp
  | cons a t ih =>
    simp only [List.dropWhile_cons]
    split
    · exact ih
    · rename_i hpa
      intro h
      simp only [List.head?_cons, Option.some.injEq] at h
      subst h
      exact Bool.not_eq_true _ ▸ hpa

lemma rdropWhile_decomp (p : Char → Bool) (l : List Char) :
    ∃ t, l = rdropWhile p l ++ t := by
  refine ⟨(l.reverse.takeWhile p).reverse, ?_⟩
  unfold rdropWhile
  rw [← List.reverse_append, List.takeWhile_append_dropWhile, List.reverse_reverse]

lemma head?_collapseDots (c : Char) :
    ∀ (cs : List Char), (collapseDots (c :: cs)).head? = some c := by
  intro cs
  induction cs generalizing c with
  | nil => simp [collapseDots]
  | cons c2 rest ih =>
    simp only [collapseDots]
    split
    · rename_i hcc
      rw [ih c2, hcc.1, hcc.2]
    · simp

lemma chain'_collapseDots : ∀ (l : List Char), List.Chain' noDD (collapseDots l) := by
  intro l
  induction l with
  | nil => simp [collapseDots]
  | cons c1 tl ih =>
    cases tl with
    | nil => simp [collapseDots]
    | cons c2 rest =>
      simp only [collapseDots]
      split
      · exact ih
      · rename_i hcc
        rw [List.chain'_cons']
        refine ⟨?_, ih⟩
        intro h hh
        rw [head?_collapseDots c2 rest, Option.mem_def, Option.some.injEq] at hh
        subst hh
        exact hcc

lemma chain'_append_left {R : Char → Char → Prop} {A B : List Char}
    (h : List.Chain' R (A ++ B)) : List.Chain' R A :=
  (List.chain'_append.mp h).1

lemma chain'_append_right {R : Char → Char → Prop} {A B : List Char}
    (h : List.Chain' R (A ++ B)) : List.Chain' R B :=
  (List.chain'_append.mp h).2.1

lemma chain'_dropWhile {R : Char → Char → Prop} {p : Char → Bool} {l : List Char}
    (h : List.Chain' R l) : List.Chain' R (l.dropWhile p) := by
  have hd := List.takeWhile_append_dropWhile (p := p) (l := l)
  exact chain'_append_right (hd ▸ h)

lemma chain'_rdropWhile {R : Char → Char → Prop} {p : Char → Bool} {l : List Char}
    (h : List.Chain' R l) : List.Chain' R (rdropWhile p l) := by
  obtain ⟨t, ht⟩ := rdropWhile_decomp p l
  exact chain'_append_left (ht ▸ h)

lemma chain'_take {R : Char → Char → Prop} {n : Nat} {l : List Char}
    (h : List.Chain' R l) : List.Chain' R (l.take n) := by
  have hd := List.take_append_drop n l
  exact chain'_append_left (hd ▸ h)

/-- Every character of a sanitized local part lies in the allowed class. -/
lemma sanitize_mem_allowed (raw : List Char) :
    ∀ c ∈ sanitize_local_part raw, isAllowedCh c = true := by
  intro c hc
  unfold sanitize_local_part at hc
  have h1 := List.mem_of_mem_take hc
  unfold stripDots at h1
  have h2 := mem_dropWhile (mem_rdropWhile h1)
  have h3 := mem_collapseDots h2
  exact List.of_mem_filter h3

lemma head?_rdropWhile {p : Char → Bool} {l : List Char} {c : Char}
    (h : (rdropWhile p l).head? = some c) : l.head? = some c := by
  obtain ⟨t, ht⟩ := rdropWhile_decomp p l
  cases hA : rdropWhile p l with
  | nil => rw [hA] at h; simp at h
  | cons a as =>
    rw [hA] at h
    simp only [List.head?_cons, Option.some.injEq] at h
    subst h
    rw [ht, hA]
    simp

lemma head?_stripDots_ne_dot {l : List Char} {c : Char}
    (h : (stripDots l).head? = some c) : c ≠ '.' := by
  unfold stripDots at h
  have h2 := head?_rdropWhile h
  have := head_dropWhile_false h2
  simpa using this

lemma head?_take_pos {l : List Char} {n : Nat} (hn : 0 < n) :
    (l.take n).head? = l.head? := by
  cases n with
  | zero => exact absurd hn (by simp)
  | succ m => cases l <;> simp

/-- A sanitized local part never starts with a dot. -/
lemma sanitize_head_ne_dot (raw : List Char) (c : Char)
    (h : (sanitize_local_part raw).head? = some c) : c ≠ '.' := by
  unfold sanitize_local_part at h
  rw [head?_take_pos (by norm_num)] at h
  exact head?_stripDots_ne_dot h

/-- A sanitized local part has no two adjacent dots. -/
lemma sanitize_chain' (raw : List Char) :
    List.Chain' noDD (sanitize_local_part raw) := by
  unfold sanitize_local_part stripDots
  exact chain'_take (chain'_rdropWhile (chain'_dropWhile (chain'_collapseDots _)))

/-- A sanitized local part has at most 32 characters. -/
lemma sanitize_length_le (raw : List Char) :
    (sanitize_local_part raw).length ≤ 32 := by
  unfold sanitize_local_part
  rw [List.length_take]
  exact min_le_left _ _

lemma allowed_toNat {c : Char} (h : isAllowedCh c = true) :
    (97 ≤ c.toNat ∧ c.toNat ≤ 122) ∨ (48 ≤ c.toNat ∧ c.toNat ≤ 57) ∨
      c.toNat = 46 ∨ c.toNat = 95 ∨ c.toNat = 45 := by
  simp only [isAllowedCh, isLowerCh, isDigitCh, Bool.or_eq_true, Bool.and_eq_true,
    decide_eq_true_eq] at h
  rcases h with ((((h | h) | h) | h) | h)
  · exact Or.inl h
  · exact Or.inr (Or.inl h)
  · subst h; exact Or.inr (Or.inr (Or.inl rfl))
  · subst h; exact Or.inr (Or.inr (Or.inr (Or.inl rfl)))
  · subst h; exact Or.inr (Or.inr (Or.inr (Or.inr rfl)))

lemma allowed_not_space {c : Char} (h : isAllowedCh c = true) : isSpaceCh c = false := by
  have hn := allowed_toNat h
  simp only [isSpaceCh, Bool.or_eq_false_iff, decide_eq_false_iff_not]
  omega

lemma allowed_not_upper {c : Char} (h : isAllowedCh c = true) : isUpperCh c = false := by
  have hn := allowed_toNat h
  simp only [isUpperCh, Bool.and_eq_false_iff, decide_eq_false_iff_not]
  omega

lemma allowed_lower_id {c : Char} (h : isAllowedCh c = true) : lowerCh c = c := by
  rw [lowerCh, allowed_not_upper h]
  simp

lemma dropWhile_eq_self_of_forall {p : Char → Bool} {l : List Char}
    (h : ∀ c ∈ l, p c = false) : l.dropWhile p = l := by
  cases l with
  | nil => rfl
  | cons a t =>
    rw [List.dropWhile_cons, h a (List.mem_cons_self a t)]
    simp

lemma rdropWhile_eq_self_of_forall {p : Char → Bool} {l : List Char}
    (h : ∀ c ∈ l, p c = false) : rdropWhile p l = l := by
  unfold rdropWhile
  rw [dropWhile_eq_self_of_forall (fun c hc => h c (List.mem_reverse.mp hc)),
    List.reverse_reverse]

lemma subWs_eq_self : ∀ {l : List Char}, (∀ c ∈ l, isSpaceCh c = false) → subWs l = l := by
  intro l
  induction l with
  | nil => intro _; rfl
  | cons c1 tl ih =>
    intro h
    cases tl with
    | nil =>
      simp only [subWs, h c1 (List.mem_cons_self c1 [])]
      simp
    | cons c2 rest =>
      simp only [subWs, h c1 (List.mem_cons_self c1 _)]
      simp only [Bool.false_eq_true, if_false]
      rw [ih (fun c hc => h c (List.mem_cons_of_mem c1 hc))]

lemma collapseDots_eq_self : ∀ {l : List Char}, List.Chain' noDD l → collapseDots l = l := by
  intro l
  induction l with
  | nil => intro _; rfl
  | cons c1 tl ih =>
    intro h
    cases tl with
    | nil => rfl
    | cons c2 rest =>
      rw [List.chain'_cons] at h
      simp only [collapseDots]
      rw [if_neg h.1, ih h.2]

lemma dropWhile_dot_eq_self_of_head {l : List Char}
    (h : ∀ c, l.head? = some c → c ≠ '.') : l.dropWhile (fun c => c = '.') = l := by
  cases l with
  | nil => rfl
  | cons a t =>
    rw [List.dropWhile_cons, if_neg]
    simp only [decide_eq_true_eq]
    exact h a rfl

lemma rdropWhile_dot_eq_self_of_getLast {l : List Char}
    (h : l.getLast? ≠ some '.') : rdropWhile (fun c => c = '.') l = l := by
  unfold rdropWhile
  cases hr : l.reverse with
  | nil =>
    have : l = [] := by simpa using congrArg List.reverse hr
    subst this
    rfl
  | cons a t =>
    have ha : l.getLast? = some a := by
      rw [← List.head?_reverse, hr]
      rfl
    rw [List.dropWhile_cons, if_neg]
    · rw [← hr, List.reverse_reverse]
    · simp only [decide_eq_true_eq]
      intro hadot
      exact h (hadot ▸ ha)

/-- Sanitization is the identity on any string that is already in sanitized
shape: allowed characters only, no adjacent dots, no dot at either end, at
most 32 characters. -/
lemma sanitize_eq_self {y : List Char}
    (hall : ∀ c ∈ y, isAllowedCh c = true)
    (hchain : List.Chain' noDD y)
    (hhead : ∀ c, y.head? = some c → c ≠ '.')
    (hlast : y.getLast? ≠ some '.')
    (hlen : y.length ≤ 32) :
    sanitize_local_part y = y := by
  unfold sanitize_local_part
  have hstrip : pyStrip y = y := by
    unfold pyStrip
    rw [dropWhile_eq_self_of_forall (fun c hc => allowed_not_space (hall c hc)),
      rdropWhile_eq_self_of_forall (fun c hc => allowed_not_space (hall c hc))]
  rw [hstrip]
  have hmap : y.map lowerCh = y := by
    have h1 : y.map lowerCh = y.map id :=
      List.map_congr_left (fun c hc => allowed_lower_id (hall c hc))
    rw [h1, List.map_id]
  rw [hmap, subWs_eq_self (fun c hc => allowed_not_space (hall c hc)),
    List.filter_eq_self.mpr hall, collapseDots_eq_self hchain]
  unfold stripDots
  rw [dropWhile_dot_eq_self_of_head hhead, rdropWhile_dot_eq_self_of_getLast hlast,
    List.take_of_length_le hlen]

lemma dedupAcc_nodup : ∀ (l seen : List (List Char)),
    (dedupAcc seen l).Nodup ∧ ∀ x ∈ dedupAcc seen l, x ∉ seen := by
  intro l
  induction l with
  | nil => intro seen; simp [dedupAcc]
  | cons e rest ih =>
    intro seen
    rw [dedupAcc]
    split
    · rename_i hcond
      obtain ⟨ihn, ihs⟩ := ih ((pyStrip e).map lowerCh :: seen)
      refine ⟨List.nodup_cons.mpr ⟨?_, ihn⟩, ?_⟩
      · intro hmem
        exact (ihs _ hmem) (List.mem_cons_self _ _)
      · intro x hx
        rcases List.mem_cons.mp hx with hx | hx
        · exact hx ▸ hcond.2
        · intro hxseen
          exact (ihs x hx) (List.mem_cons_of_mem _ hxseen)
    · exact ih seen

lemma extract_emails_nodup (t : List Char) : (extract_emails t).Nodup := by
  unfold extract_emails
  split
  · exact List.nodup_nil
  · exact (dedupAcc_nodup (findAll t) []).1

/-- Claim C4 (amended).  The extraction grammar `local@domain.tld` requires
the domain to contain a dot followed by at least two ASCII letters, so the
spec's bare-`domain` example must use a dotted domain: on
`"Jane <Jane.Doe@tst.co> , other@tst.co"` extraction yields exactly
`["jane.doe@tst.co", "other@tst.co"]` in first-seen order, lowercased;
duplicate addresses (after lowercasing) are dropped, and the result list
never contains a duplicate. -/
theorem extract_emails_spec (t : List Char) :
    extract_emails "Jane <Jane.Doe@tst.co> , other@tst.co".data =
      ["jane.doe@tst.co".data, "other@tst.co".data] ∧
    extract_emails "A@B.CO a@b.co x@y.zz".data = ["a@b.co".data, "x@y.zz".data] ∧
    (extract_emails t).Nodup :=
  ⟨by decide, by decide, extract_emails_nodup t⟩

/-- Claim C4, counterexample to the literal spec example: with the literal
recipient field `"Jane <jane.doe@domain> , other@domain"` the regex finds no
match at all (the domain part has no dot), so extraction returns `[]`, not
the two claimed addresses. -/
theorem extract_emails_bare_domain_cex :
    extract_emails "Jane <jane.doe@domain> , other@domain".data = [] ∧
    extract_emails "Jane <jane.doe@domain> , other@domain".data ≠
      ["jane.doe@domain".data, "other@domain".data] := by
  refine ⟨by decide, ?_⟩
  intro h
  rw [show extract_emails "Jane <jane.doe@domain> , other@domain".data = [] from by decide] at h
  exact absurd h (by decide)

/-- Claim C5 (amended).  Every character of `sanitize_local_part raw` is a
lowercase letter, digit, dot, underscore or hyphen; the result has no
leading dot, no two adjacent dots, and at most 32 characters.  (A trailing
dot is possible: the 32-character truncation runs after the dot strip.) -/
theorem sanitize_local_part_shape (raw : List Char) :
    (∀ c ∈ sanitize_local_part raw, isAllowedCh c = true) ∧
    (∀ c, (sanitize_local_part raw).head? = some c → c ≠ '.') ∧
    List.Chain' noDD (sanitize_local_part raw) ∧
    (sanitize_local_part raw).length ≤ 32 :=
  ⟨sanitize_mem_allowed raw, sanitize_head_ne_dot raw, sanitize_chain' raw,
    sanitize_length_le raw⟩

/-- Claim C5, witness: the sanitized form of `"John Doe!!"` is `"john.doe"`;
its member `'j'` is allowed and its head is not a dot. -/
theorem sanitize_local_part_shape_witness :
    isAllowedCh 'j' = true ∧ 'j' ≠ '.' ∧
    (sanitize_local_part "John Doe!!".data).length ≤ 32 :=
  ⟨(sanitize_local_part_shape "John Doe!!".data).1 'j' (by decide),
    (sanitize_local_part_shape "John Doe!!".data).2.1 'j' (by decide),
    (sanitize_local_part_shape "John Doe!!".data).2.2.2⟩

/-- Claim C5, counterexample to "no trailing dots": on a 31-character run
followed by a dotted tail, the final truncation to 32 characters cuts just
after a dot, so the sanitized local part ends in a dot. -/
theorem sanitize_trailing_dot_cex :
    (sanitize_local_part (List.replicate 31 'a' ++ ".bbbbb".data)).getLast? = some '.' := by
  decide

/-- Claim C6 (amended).  Sanitization is idempotent on every input whose
sanitized form does not end in a dot — that is, on every input except those
where the 32-character truncation cuts directly after a dot. -/
theorem sanitize_idempotent_of_no_trailing_dot (raw : List Char)
    (h : (sanitize_local_part raw).getLast? ≠ some '.') :
    sanitize_local_part (sanitize_local_part raw) = sanitize_local_part raw :=
  sanitize_eq_self (sanitize_mem_allowed raw) (sanitize_chain' raw)
    (sanitize_head_ne_dot raw) h (sanitize_length_le raw)

/-- Claim C6, witness at the spec's own example input. -/
theorem sanitize_idempotent_witness :
    (sanitize_local_part "John Doe!!".data).getLast? ≠ some '.' ∧
    sanitize_local_part (sanitize_local_part "John Doe!!".data) =
      sanitize_local_part "John Doe!!".data :=
  ⟨by decide, sanitize_idempotent_of_no_trailing_dot "John Doe!!".data (by decide)⟩

/-- Claim C6, counterexample to unconditional idempotence: sanitizing
31 characters, a dot and one more character truncates to a trailing dot,
and a second sanitization pass strips that dot. -/
theorem sanitize_not_idempotent_cex :
    sanitize_local_part (sanitize_local_part (List.replicate 31 'a' ++ ".b".data)) ≠
      sanitize_local_part (List.replicate 31 'a' ++ ".b".data) := by
  decide

/-- Claim C7 (amended).  For an owner in the awaiting-custom-name state
(and not blocked, and not inside an admin prompt), the next free-text
message clears the flag exactly when the sanitized name is nonempty: a
successful mint and a `NameTaken` failure both clear it, while an
`InvalidName` failure (sanitization yields the empty string) leaves the
owner in the awaiting state and re-prompts. -/
theorem on_text_waiting_flag (cfg : Config) (s : St) (uid : Nat) (t : List Char)
    (hblock : ¬(s.blocked_users uid = true ∧ is_admin cfg uid = false))
    (hab : s.admin_waiting_block uid = false)
    (hau : s.admin_waiting_unblock uid = false)
    (hw : s.waiting_for_name uid = true) :
    (on_text cfg s uid t).1.waiting_for_name uid =
      (if sanitize_local_part t = [] then true else false) := by
  have h1 : (s.blocked_users uid && !is_admin cfg uid) = false := by
    cases hb : s.blocked_users uid <;> cases ha : is_admin cfg uid <;> simp_all
  rw [on_text, h1, hab, hau, hw]
  simp only [Bool.false_eq_true, if_false, Bool.not_true]
  split
  · rename_i hsan
    simp [hsan, hw]
  · rename_i hsan
    cases howner : s.email_owner (make_email (sanitize_local_part t)) with
    | none => simp [howner, remember_email]
    | some o =>
      simp only [howner]
      split
      · simp
      · simp [remember_email]

/-- Claim C7, witness: a valid name submission clears the flag. -/
theorem on_text_waiting_flag_witness :
    sWait.waiting_for_name 5 = true ∧
    (on_text ⟨none, [], []⟩ sWait 5 "bob".data).1.waiting_for_name 5 =
      (if sanitize_local_part "bob".data = [] then true else false) :=
  ⟨by decide,
    on_text_waiting_flag ⟨none, [], []⟩ sWait 5 "bob".data (by decide) (by decide)
      (by decide) (by decide)⟩

/-- Claim C7, counterexample to "removed whether the submission succeeds or
fails": a message sanitizing to the empty string takes the `InvalidName`
path, which replies before discarding, so the owner stays in the
awaiting-custom-name state. -/
theorem on_text_invalid_keeps_waiting_cex :
    (on_text ⟨none, [], []⟩ sWait 5 "!!!".data).1.waiting_for_name 5 = true ∧
    (on_text ⟨none, [], []⟩ sWait 5 "!!!".data).2 = TextOutcome.invalidName := by
  decide

lemma on_button_nonrandom_email_owner (cfg : Config) (s : St) (uid : Nat) (data : List Char) :
    (on_button_nonrandom cfg s uid data).email_owner = s.email_owner := by
  unfold on_button_nonrandom
  split_ifs <;> rfl

/-- Across one `on_text` call, the owner of an address either stays exactly
what it was, or the address is the minted one and gets owner `uid`, which
is only possible when its previous owner was absent, `0` or `uid` itself. -/
lemma on_text_email_owner (cfg : Config) (s : St) (uid : Nat) (t : List Char) (a : List Char) :
    (on_text cfg s uid t).1.email_owner a = s.email_owner a ∨
    ((on_text cfg s uid t).1.email_owner a = some uid ∧
      (s.email_owner a = none ∨ s.email_owner a = some 0 ∨ s.email_owner a = some uid)) := by
  unfold on_text
  split
  · exact Or.inl rfl
  · split
    · split
      · exact Or.inl rfl
      · split
        · exact Or.inl rfl
        · exact Or.inl rfl
    · split
      · split
        · exact Or.inl rfl
        · split
          · exact Or.inl rfl
          · split
            · exact Or.inl rfl
            · exact Or.inl rfl
      · split
        · exact Or.inl rfl
        · dsimp only
          split
          · exact Or.inl rfl
          · cases howner : s.email_owner (make_email (sanitize_local_part t)) with
            | none =>
              by_cases ha : a = make_email (sanitize_local_part t)
              · subst ha
                right
                refine ⟨?_, Or.inl howner⟩
                simp [howner, remember_email]
              · left
                simp [howner, remember_email, ha]
            | some o =>
              simp only [howner]
              split
              · exact Or.inl rfl
              · rename_i hguard
                by_cases ha : a = make_email (sanitize_local_part t)
                · subst ha
                  right
                  refine ⟨by simp [remember_email], ?_⟩
                  rcases not_and_or.mp hguard with h | h
                  · have : o = 0 := by simpa using h
                    exact Or.inr (Or.inl (this ▸ howner))
                  · have : o = uid := by simpa using h
                    exact Or.inr (Or.inr (this ▸ howner))
                · left
                  simp [remember_email, ha]

/-- Across one inbound event, an address's owner is unchanged or newly set
to the (positive) acting user, the latter only from an absent, zero or
identical previous owner. -/
lemma step_email_owner {cfg : Config} {s s' : St} (h : Step cfg s s') (a : List Char) :
    s'.email_owner a = s.email_owner a ∨
    (∃ uid, 0 < uid ∧ s'.email_owner a = some uid ∧
      (s.email_owner a = none ∨ s.email_owner a = some 0 ∨ s.email_owner a = some uid)) := by
  cases h with
  | button uid data hpos hnr =>
    left
    rw [on_button_nonrandom_email_owner]
  | buttonRandom uid c hpos hb hfree =>
    by_cases ha : a = make_email c
    · subst ha
      right
      refine ⟨uid, hpos, by simp [remember_email], ?_⟩
      unfold freeForB at hfree
      cases howner : s.email_owner (make_email c) with
      | none => exact Or.inl rfl
      | some o =>
        rw [howner] at hfree
        simp only [Bool.or_eq_true, beq_iff_eq] at hfree
        rcases hfree with h | h
        · subst h; exact Or.inr (Or.inl rfl)
        · subst h; exact Or.inr (Or.inr rfl)
    · left
      simp [remember_email, ha]
  | textMsg uid t hpos =>
    rcases on_text_email_owner cfg s uid t a with h | ⟨h1, h2⟩
    · exact Or.inl h
    · exact Or.inr ⟨uid, hpos, h1, h2⟩
  | mailEvent => exact Or.inl rfl

lemma step_preserves_owner {cfg : Config} {s s' : St} (h : Step cfg s s')
    {a : List Char} {o : Nat} (ho : s.email_owner a = some o) (hpos : 0 < o) :
    s'.email_owner a = some o := by
  rcases step_email_owner h a with he | ⟨uid, hu, h1, h2⟩
  · rw [he, ho]
  · rcases h2 with h2 | h2 | h2
    · rw [ho] at h2; cases h2
    · rw [ho] at h2
      have : o = 0 := by injection h2
      omega
    · rw [ho] at h2
      have : o = uid := by injection h2
      rw [h1, this]

lemma step_owners_pos {cfg : Config} {s s' : St} (h : Step cfg s s')
    (hall : ∀ a o, s.email_owner a = some o → 0 < o) :
    ∀ a o, s'.email_owner a = some o → 0 < o := by
  intro a o ho
  rcases step_email_owner h a with he | ⟨uid, hu, h1, h2⟩
  · exact hall a o (he ▸ ho)
  · rw [h1] at ho
    have : uid = o := by injection ho
    omega

/-- Every owner recorded in a reachable registry is a positive user id. -/
lemma reach_owners_pos {cfg : Config} {s : St} (h : Reachable cfg s) :
    ∀ a o, s.email_owner a = some o → 0 < o := by
  induction h with
  | refl =>
    intro a o h0
    simp [st0] at h0
  | tail _ hstep ih => exact step_owners_pos hstep ih

lemma steps_preserve_owner {cfg : Config} {s s' : St}
    (h : Relation.ReflTransGen (Step cfg) s s')
    {a : List Char} {o : Nat} (ho : s.email_owner a = some o) (hpos : 0 < o) :
    s'.email_owner a = some o := by
  induction h with
  | refl => exact ho
  | tail _ hstep ih => exact step_preserves_owner hstep ih hpos

/-- Claim C1.  Once a reachable registry state maps an address to an owner,
every later reachable state maps it to the same owner: random mints, named
mints and (read-only) inbound routing never reassign an owned address. -/
theorem email_owner_never_reassigned (cfg : Config) (s s' : St) (a : List Char)
    (o1 o2 : Nat) (hreach : Reachable cfg s)
    (hsteps : Relation.ReflTransGen (Step cfg) s s')
    (h1 : s.email_owner a = some o1) (h2 : s'.email_owner a = some o2) : o1 = o2 := by
  have hpos := reach_owners_pos hreach a o1 h1
  have hkeep := steps_preserve_owner hsteps h1 hpos
  rw [hkeep] at h2
  injection h2

/-- Claim C1, witness: a one-step reachable state owning one address, to
which the theorem applies along the empty continuation. -/
theorem email_owner_never_reassigned_witness :
    Reachable cfg0 sMint ∧ sMint.email_owner (make_email "bob".data) = some 5 ∧ 5 = 5 := by
  have hreach : Reachable cfg0 sMint :=
    Relation.ReflTransGen.single
      (Step.buttonRandom 5 "bob".data (by decide) (by decide) (by decide))
  have h1 : sMint.email_owner (make_email "bob".data) = some 5 := by decide
  exact ⟨hreach, h1,
    email_owner_never_reassigned cfg0 sMint sMint (make_email "bob".data) 5 5 hreach
      Relation.ReflTransGen.refl h1 h1⟩

/-- Claim C3.  In any reachable state, a named mint whose sanitized address
is already owned by a different user fails with `NameTaken` and leaves the
`email_owner`, `user_emails` and `user_last_email` mappings unchanged. -/
theorem mint_named_name_taken (cfg : Config) (s : St) (uid : Nat) (t : List Char) (o2 : Nat)
    (hreach : Reachable cfg s)
    (hblock : ¬(s.blocked_users uid = true ∧ is_admin cfg uid = false))
    (hab : s.admin_waiting_block uid = false)
    (hau : s.admin_waiting_unblock uid = false)
    (hw : s.waiting_for_name uid = true)
    (hsan : sanitize_local_part t ≠ [])
    (howner : s.email_owner (make_email (sanitize_local_part t)) = some o2)
    (hne : o2 ≠ uid) :
    (on_text cfg s uid t).2 = TextOutcome.nameTaken ∧
    (on_text cfg s uid t).1.email_owner = s.email_owner ∧
    (on_text cfg s uid t).1.user_emails = s.user_emails ∧
    (on_text cfg s uid t).1.user_last_email = s.user_last_email := by
  have hpos : 0 < o2 := reach_owners_pos hreach _ _ howner
  have h1 : (s.blocked_users uid && !is_admin cfg uid) = false := by
    cases hb : s.blocked_users uid <;> cases ha : is_admin cfg uid <;> simp_all
  rw [on_text, h1, hab, hau, hw]
  simp only [Bool.false_eq_true, if_false, Bool.not_true]
  rw [if_neg hsan, howner]
  dsimp only
  rw [if_pos (⟨by omega, hne⟩ : o2 ≠ 0 ∧ o2 ≠ uid)]
  exact ⟨rfl, rfl, rfl, rfl⟩

/-- Claim C3, witness: in a concrete two-step reachable state, user 5
submitting the name `bob`, owned by user 7, gets `NameTaken`. -/
theorem mint_named_name_taken_witness :
    sOwnedWait.email_owner (make_email (sanitize_local_part "bob".data)) = some 7 ∧
    sOwnedWait.waiting_for_name 5 = true ∧
    (on_text cfg0 sOwnedWait 5 "bob".data).2 = TextOutcome.nameTaken := by
  have hreach : Reachable cfg0 sOwnedWait :=
    Relation.ReflTransGen.tail
      (Relation.ReflTransGen.single
        (Step.buttonRandom 7 "bob".data (by decide) (by decide) (by decide)))
      (Step.button 5 "choose_name".data (by decide) (by decide))
  refine ⟨by decide, by decide, ?_⟩
  exact (mint_named_name_taken cfg0 sOwnedWait 5 "bob".data 7 hreach (by decide) (by decide)
    (by decide) (by decide) (by decide) (by decide) (by decide)).1

/-- Claim C2 (amended).  The collision loop has no retry bound and no
`RegistryExhausted` outcome: it returns only addresses whose current owner
is absent, zero or the requester, and it terminates precisely when some
draw satisfies that condition — a free draw at index `n` guarantees a
result, and (see the counterexample) an all-taken draw stream starves it
forever. -/
theorem mint_random_loop_correct (s : St) (uid : Nat) (draw : Nat → List Char) :
    (∀ fuel i e, mint_random_loop s uid draw fuel i = some e → freeForB s uid e = true) ∧
    (∀ n, freeForB s uid (make_email (draw n)) = true →
      ∃ fuel e, mint_random_loop s uid draw fuel 0 = some e) := by
  constructor
  · intro fuel
    induction fuel with
    | zero => intro i e h; simp [mint_random_loop] at h
    | succ n ih =>
      intro i e h
      rw [mint_random_loop] at h
      split at h
      · rename_i hfree
        cases h
        exact hfree
      · exact ih (i + 1) e h
  · have key : ∀ n, ∀ i, freeForB s uid (make_email (draw (i + n))) = true →
        ∃ e, mint_random_loop s uid draw (n + 1) i = some e := by
      intro n
      induction n with
      | zero =>
        intro i h
        refine ⟨make_email (draw i), ?_⟩
        rw [mint_random_loop]
        simp only [Nat.add_zero] at h
        rw [if_pos h]
      | succ m ih =>
        intro i h
        by_cases hfree : freeForB s uid (make_email (draw i)) = true
        · exact ⟨make_email (draw i), by rw [mint_random_loop, if_pos hfree]⟩
        · obtain ⟨e, he⟩ := ih (i + 1) (by rw [Nat.add_comm i (m + 1)] at h; rw [show i + 1 + m = m + 1 + i from by omega]; exact h)
          refine ⟨e, ?_⟩
          rw [mint_random_loop, if_neg hfree]
          exact he
    intro n h
    obtain ⟨e, he⟩ := key n 0 (by simpa using h)
    exact ⟨n + 1, e, he⟩

/-- Claim C2, witness: on the empty registry the first draw is free, the
loop answers it within one iteration, and the returned address satisfies
the exit condition. -/
theorem mint_random_loop_correct_witness :
    mint_random_loop st0 1 (fun _ => "ab".data) 1 0 = some (make_email "ab".data) ∧
    freeForB st0 1 (make_email "ab".data) = true ∧
    (∃ fuel e, mint_random_loop st0 1 (fun _ => "ab".data) fuel 0 = some e) :=
  ⟨by decide,
    (mint_random_loop_correct st0 1 (fun _ => "ab".data)).1 1 0 (make_email "ab".data)
      (by decide),
    (mint_random_loop_correct st0 1 (fun _ => "ab".data)).2 0 (by decide)⟩

/-- Claim C2, counterexample to bounded termination: when every draw
collides with an address owned by another user, the loop of `main.py`
lines 291-295 never returns, at any finite iteration count — there is no
retry bound and no `RegistryExhausted` failure in the code. -/
theorem mint_random_unbounded_cex :
    ¬ ∃ fuel i e, mint_random_loop sTaken 1 (fun _ => "x".data) fuel i = some e := by
  rintro ⟨fuel, i, e, h⟩
  induction fuel generalizing i with
  | zero => simp [mint_random_loop] at h
  | succ n ih =>
    rw [mint_random_loop] at h
    rw [if_neg (by decide)] at h
    exact ih (i + 1) h

lemma escapeMD2_append (a b : List Char) :
    escapeMD2 (a ++ b) = escapeMD2 a ++ escapeMD2 b :=
  List.flatMap_append a b _

lemma escapeMD2_id_of_safe : ∀ {l : List Char}, (∀ c ∈ l, c ∉ escapeChars) →
    escapeMD2 l = l := by
  intro l
  induction l with
  | nil => intro _; rfl
  | cons a t ih =>
    intro h
    have ht := ih (fun c hc => h c (List.mem_cons_of_mem a hc))
    simp only [escapeMD2] at ht ⊢
    show (if a ∈ escapeChars then ['\\', a] else [a]) ++
        t.flatMap (fun c => if c ∈ escapeChars then ['\\', c] else [c]) = a :: t
    rw [if_neg (h a (List.mem_cons_self a t)), ht]
    rfl

lemma pyStrip_id_of_no_space {l : List Char} (h : ∀ c ∈ l, isSpaceCh c = false) :
    pyStrip l = l := by
  unfold pyStrip
  rw [dropWhile_eq_self_of_forall h, rdropWhile_eq_self_of_forall h]

set_option maxRecDepth 4000 in
/-- Claim C8 (amended).  The body is whitespace-stripped before length
handling: a stripped body of 4000 characters is truncated to its first
3500 plus the `"\n…"` marker, a stripped body of 10 characters reaches the
notification unmodified (up to MarkdownV2 escaping), and an empty stripped
body renders the Arabic no-text placeholder. -/
theorem format_inbound_body_cases :
    format_inbound_message "t@d.co".data "s".data "j".data (List.replicate 4000 'a') =
      "📩 وصلت رسالة جديدة\n\nإلى: `t@d\\.co`\nمن: s\nالعنوان: j\n\n".data ++
        (List.replicate 3500 'a' ++ "\n…".data) ∧
    format_inbound_message "t@d.co".data "s".data "j".data "abcdefghij".data =
      "📩 وصلت رسالة جديدة\n\nإلى: `t@d\\.co`\nمن: s\nالعنوان: j\n\nabcdefghij".data ∧
    format_inbound_message "t@d.co".data "s".data "j".data "".data =
      "📩 وصلت رسالة جديدة\n\nإلى: `t@d\\.co`\nمن: s\nالعنوان: j\n\n\\(بدون نص\\)".data := by
  refine ⟨?_, by decide, by decide⟩
  have h1 : pyStrip (List.replicate 4000 'a') = List.replicate 4000 'a' :=
    pyStrip_id_of_no_space (fun c hc => by rw [List.eq_of_mem_replicate hc]; decide)
  have h2 : truncated_body (List.replicate 4000 'a') =
      List.replicate 3500 'a' ++ ('\n' :: '…' :: []) := by
    rw [truncated_body, h1, List.length_replicate,
      if_pos (by norm_num : (3500 : Nat) < 4000), List.take_replicate,
      show min 3500 4000 = 3500 from by norm_num]
  have h3 : inbound_body (List.replicate 4000 'a') =
      List.replicate 3500 'a' ++ ('\n' :: '…' :: []) := by
    have hne : ¬(List.replicate 3500 'a' ++ ('\n' :: '…' :: []) = []) := by
      intro hfalse
      have := congrArg List.length hfalse
      rw [List.length_append, List.length_replicate] at this
      simp at this
    rw [inbound_body, h2, if_neg hne,
      escapeMD2_append,
      escapeMD2_id_of_safe (l := List.replicate 3500 'a')
        (fun c hc => by rw [List.eq_of_mem_replicate hc]; decide),
      show escapeMD2 ('\n' :: '…' :: []) = '\n' :: '…' :: [] from by decide]
  rw [format_inbound_message, h3,
    show escapeMD2 "t@d.co".data = "t@d\\.co".data from by decide,
    show escapeMD2 "s".data = "s".data from by decide,
    show escapeMD2 "j".data = "j".data from by decide,
    show ("📩 وصلت رسالة جديدة\n\nإلى: `t@d\\.co`\nمن: s\nالعنوان: j\n\n").data =
        "📩 وصلت رسالة جديدة\n\n".data ++ "إلى: `".data ++ "t@d\\.co".data ++ "`\n".data ++
          "من: ".data ++ "s".data ++ "\n".data ++ "العنوان: ".data ++ "j".data ++ "\n\n".data
      from by decide]

/-- Claim C8, counterexample to "a body of at most 3500 characters is
passed through unmodified": a 10-character body made of 9 spaces and one
letter is stripped first, so the original body text never appears in the
notification. -/
theorem format_inbound_strip_cex :
    "         a".data.length ≤ 3500 ∧
    occursIn "         a".data
      (format_inbound_message "t@d.co".data "s".data "j".data "         a".data) = false := by
  decide

lemma blockedSkip_eq (cfg : Config) (s : St) (o : Nat) :
    blockedSkip cfg s o = (s.blocked_users o && !is_admin cfg o) := by
  unfold blockedSkip is_admin
  cases cfg.owner_id with
  | none => simp
  | some v =>
    by_cases hv : v = 0
    · simp [hv]
    · by_cases ho : o = v <;> simp [hv, ho]

lemma routeLoop_sends (cfg : Config) (s : St) (sendOk : Nat → Bool)
    (sender subject body : List Char) :
    ∀ l, (routeLoop cfg s sendOk sender subject body l).2 =
      l.filterMap (deliveryFor cfg s sender subject body) := by
  intro l
  induction l with
  | nil => rfl
  | cons e rest ih =>
    cases ho : s.email_owner e with
    | none => simp [routeLoop, deliveryFor, ho, List.filterMap_cons, ih]
    | some o =>
      by_cases h0 : o = 0
      · simp [routeLoop, deliveryFor, ho, h0, List.filterMap_cons, ih]
      · by_cases hb : blockedSkip cfg s o
        · simp [routeLoop, deliveryFor, ho, h0, hb, List.filterMap_cons, ih]
        · simp [routeLoop, deliveryFor, ho, h0, hb, List.filterMap_cons, ih]

/-- Claim C9.  When the webhook is ready and authenticated, the response is
always success-shaped (`ok = true`, even with zero deliveries); the
attempted sends are exactly the per-recipient delivery decisions in order
(so skipping one owner never stops the others); and no send is ever
attempted to a blocked owner unless that owner is the configured admin. -/
theorem mailgun_blocked_skipped (cfg : Config) (s : St)
    (hdr recipient toU toL envl sender subject stT bpT : List Char) (sendOk : Nat → Bool)
    (hauth : cfg.mg_secret = [] ∨ hdr = cfg.mg_secret) :
    (∃ r, (mailgun_inbound cfg s true hdr recipient toU toL envl sender subject stT bpT
        sendOk).1 = Except.ok (true, r)) ∧
    ((mailgun_inbound cfg s true hdr recipient toU toL envl sender subject stT bpT
        sendOk).2 =
      (extract_emails (pyStrip (recipient ++ " , ".data ++ (if toU ≠ [] then toU else toL) ++
        " , ".data ++ envl))).filterMap
        (deliveryFor cfg s (pyStrip sender) (pyStrip subject)
          (pyStrip (if stT ≠ [] then stT else bpT)))) ∧
    (∀ p ∈ (mailgun_inbound cfg s true hdr recipient toU toL envl sender subject stT bpT
        sendOk).2, s.blocked_users p.1 = true → is_admin cfg p.1 = true) := by
  have hcond : ¬(cfg.mg_secret ≠ [] ∧ hdr ≠ cfg.mg_secret) := by
    rcases hauth with h | h
    · exact fun hc => hc.1 h
    · exact fun hc => hc.2 h
  have hmain :
      (mailgun_inbound cfg s true hdr recipient toU toL envl sender subject stT bpT
          sendOk).1 =
        Except.ok (true,
          if extract_emails (pyStrip (recipient ++ " , ".data ++
              (if toU ≠ [] then toU else toL) ++ " , ".data ++ envl)) = [] then none
          else some (routeLoop cfg s sendOk (pyStrip sender) (pyStrip subject)
            (pyStrip (if stT ≠ [] then stT else bpT))
            (extract_emails (pyStrip (recipient ++ " , ".data ++
              (if toU ≠ [] then toU else toL) ++ " , ".data ++ envl)))).1) ∧
      (mailgun_inbound cfg s true hdr recipient toU toL envl sender subject stT bpT
          sendOk).2 =
        (extract_emails (pyStrip (recipient ++ " , ".data ++
          (if toU ≠ [] then toU else toL) ++ " , ".data ++ envl))).filterMap
          (deliveryFor cfg s (pyStrip sender) (pyStrip subject)
            (pyStrip (if stT ≠ [] then stT else bpT))) := by
    rw [mailgun_inbound]
    simp only [Bool.not_true, Bool.false_eq_true, if_false]
    rw [if_neg hcond]
    split <;> split
    · rename_i hrec
      rw [hrec, List.filterMap_nil]
      exact ⟨rfl, rfl⟩
    · exact ⟨rfl, routeLoop_sends cfg s sendOk _ _ _ _⟩
    · rename_i hrec
      rw [hrec, List.filterMap_nil]
      exact ⟨rfl, rfl⟩
    · exact ⟨rfl, routeLoop_sends cfg s sendOk _ _ _ _⟩
  refine ⟨⟨_, hmain.1⟩, hmain.2, ?_⟩
  intro p hp hblocked
  rw [hmain.2] at hp
  obtain ⟨e, _, hfe⟩ := List.mem_filterMap.mp hp
  unfold deliveryFor at hfe
  cases ho : s.email_owner e with
  | none => rw [ho] at hfe; cases hfe
  | some o =>
    rw [ho] at hfe
    dsimp only at hfe
    by_cases h0 : o = 0
    · rw [if_pos h0] at hfe; cases hfe
    · rw [if_neg h0] at hfe
      by_cases hb : blockedSkip cfg s o
      · rw [if_pos hb] at hfe; cases hfe
      · rw [if_neg hb] at hfe
        have hpo : p.1 = o := by
          cases hfe
          rfl
        rw [blockedSkip_eq] at hb
        rw [hpo] at hblocked ⊢
        cases ha : is_admin cfg o
        · exact absurd (by rw [hblocked, ha]; rfl) hb
        · rfl

/-- Claim C9, witness: a blocked non-admin owner receives nothing, zero
owners are delivered to, and the response is still success-shaped. -/
theorem mailgun_blocked_skipped_witness :
    (∃ r, (mailgun_inbound cfg0 sBlocked true [] "a@b.co".data [] [] [] [] [] [] []
        (fun _ => true)).1 = Except.ok (true, r)) ∧
    (mailgun_inbound cfg0 sBlocked true [] "a@b.co".data [] [] [] [] [] [] []
        (fun _ => true)).2 = [] :=
  ⟨(mailgun_blocked_skipped cfg0 sBlocked [] "a@b.co".data [] [] [] [] [] [] []
      (fun _ => true) (Or.inl rfl)).1, by decide⟩

/-- Claim C10.  With the bot ready, each webhook raises 403 exactly when
its secret is configured (nonempty) and the request header differs from
it; with no secret configured the request is always processed and answered
ok, with no authentication check at all. -/
theorem webhook_auth_403 (cfg : Config) (s : St)
    (hdr1 hdr2 recipient toU toL envl sender subject stT bpT : List Char)
    (sendOk : Nat → Bool) :
    ((mailgun_inbound cfg s true hdr1 recipient toU toL envl sender subject stT bpT
        sendOk).1 = Except.error 403 ↔ cfg.mg_secret ≠ [] ∧ hdr1 ≠ cfg.mg_secret) ∧
    (telegram_webhook cfg true hdr2 = Except.error 403 ↔
      cfg.tg_secret ≠ [] ∧ hdr2 ≠ cfg.tg_secret) ∧
    (cfg.mg_secret = [] →
      ∃ r, (mailgun_inbound cfg s true hdr1 recipient toU toL envl sender subject stT bpT
        sendOk).1 = Except.ok r) ∧
    (cfg.tg_secret = [] → telegram_webhook cfg true hdr2 = Except.ok true) := by
  have hmail : ∀ hc : ¬(cfg.mg_secret ≠ [] ∧ hdr1 ≠ cfg.mg_secret),
      ∃ r, (mailgun_inbound cfg s true hdr1 recipient toU toL envl sender subject stT bpT
        sendOk).1 = Except.ok r := by
    intro hc
    rw [mailgun_inbound]
    simp only [Bool.not_true, Bool.false_eq_true, if_false]
    rw [if_neg hc]
    split <;> split
    · exact ⟨(true, none), rfl⟩
    · exact ⟨_, rfl⟩
    · exact ⟨(true, none), rfl⟩
    · exact ⟨_, rfl⟩
  refine ⟨?_, ?_, ?_, ?_⟩
  · constructor
    · intro h
      by_contra hc
      obtain ⟨r, hr⟩ := hmail hc
      rw [hr] at h
      cases h
    · intro hc
      rw [mailgun_inbound]
      simp only [Bool.not_true, Bool.false_eq_true, if_false]
      rw [if_pos hc]
  · constructor
    · intro h
      by_contra hc
      rw [telegram_webhook] at h
      simp only [Bool.not_true, Bool.false_eq_true, if_false] at h
      rw [if_neg hc] at h
      cases h
    · intro hc
      rw [telegram_webhook]
      simp only [Bool.not_true, Bool.false_eq_true, if_false]
      rw [if_pos hc]
  · intro hsec
    exact hmail (fun hc => hc.1 hsec)
  · intro hsec
    rw [telegram_webhook]
    simp only [Bool.not_true, Bool.false_eq_true, if_false]
    rw [if_neg (fun hc => hc.1 hsec)]

/-- Claim C10, witness: with no secrets configured, both webhooks process
any request, and with a secret configured a differing header is rejected
with 403. -/
theorem webhook_auth_403_witness :
    (∃ r, (mailgun_inbound cfg0 st0 true "z".data [] [] [] [] [] [] [] []
      (fun _ => true)).1 = Except.ok r) ∧
    telegram_webhook cfg0 true "z".data = Except.ok true ∧
    telegram_webhook ⟨none, "s3".data, []⟩ true "z".data = Except.error 403 :=
  ⟨(webhook_auth_403 cfg0 st0 "z".data "z".data [] [] [] [] [] [] [] []
      (fun _ => true)).2.2.1 rfl,
    (webhook_auth_403 cfg0 st0 "z".data "z".data [] [] [] [] [] [] [] []
      (fun _ => true)).2.2.2 rfl,
    (webhook_auth_403 ⟨none, "s3".data, []⟩ st0 "z".data "z".data [] [] [] [] [] [] [] []
      (fun _ => true)).2.1.mpr ⟨by decide, by decide⟩⟩
